import Mathlib

/-!
# quiet_hn: the fetch/aggregation engine and its caches

A shallow embedding of the two programs of the repository:

* `src/main.go` (namespace `Main`): worker pool (`startWorkers`), order-restoring
  collector (`getStories`), over-fetch loop (`getTopStories`) and the snapshot cache
  (`refreshCache`, `getCachedStories`);
* `src/students/jbimbert/main.go` (namespace `Jbimbert`): the bounded cache with expiry
  (`cache.find`, `cache.add`, `cache.purge`) and `getStoriesWithChannel`.

Conventions of the embedding.

* Channels are lists in sending order; the order in which concurrently running workers
  deliver their results is a parameter `arrive`, a function that reorders the results.
* A Go call that may panic, block for ever or keep looping returns a `Run`.
* The remote lookups (`hn.Client.GetItem`, `hn.Client.TopItems`), `net/url` and the clock
  are parameters of the definitions that use them.
-/

/-- Outcome of running a piece of Go code: it returns a value, panics, blocks for ever on
a channel receive, or is still looping when the fuel of the model runs out. -/
inductive Run (α : Type) where
  | ret (a : α)
  | panic (msg : String)
  | blocked
  | running
  deriving DecidableEq, Repr

namespace Hn

/-- Modelled from the spec: the record type `hn.Item` is declared in package `hn`, which is
not among the sources. The spec's ItemRecord has a kind ("story", "comment", "job"), an
optional destination URL and feed-assigned identifying fields; the code reads the fields
`ID`, `Type` and `URL`, and `Title` stands for the fields it only carries along. -/
structure Item where
  ID : Int
  «Type» : String
  URL : String
  Title : String
  deriving DecidableEq, Repr

/-- The zero value `hn.Item{}`. -/
def Item.zero : Item := ⟨0, "", "", ""⟩

end Hn

/-- Go's `strings.TrimPrefix`. -/
def trimPrefix (s pre : String) : String :=
  if pre.data.isPrefixOf s.data then String.mk (s.data.drop pre.data.length) else s

/-- Two's-complement wrap-around of a Go `int` (64 bits). -/
def wrap64 (x : Int) : Int := (x + 2 ^ 63) % 2 ^ 64 - 2 ^ 63

/-- The slice expression `ids[lo:hi]` on a slice whose capacity equals its length:
`none` is the run-time panic "slice bounds out of range". -/
def sliceOf {α : Type} (xs : List α) (lo hi : Int) : Option (List α) :=
  if 0 ≤ lo ∧ lo ≤ hi ∧ hi ≤ (xs.length : Int) then
    some ((xs.drop lo.toNat).take (hi - lo).toNat)
  else none

/-- A stand-in for `net/url` (`url.Parse` followed by `Hostname()`): every URL parses, the
empty URL has the empty host and every other URL the host `www.example.com`. -/
def hostExample (u : String) : Option String :=
  if u = "" then some "" else some "www.example.com"

namespace Main

/-- The struct `item` of src/main.go: the `hn.Item` plus the `Host` field. -/
structure item where
  Item : Hn.Item
  Host : String
  deriving DecidableEq, Repr

/-- The zero value `item{}`. -/
def item.zero : item := ⟨Hn.Item.zero, ""⟩

/-- The struct `result`; `err` is `none` for Go's `nil`. -/
structure result where
  idx : Int
  item : item
  err : Option String
  deriving DecidableEq, Repr

/-- The struct `job`. -/
structure job where
  id : Int
  idx : Int
  deriving DecidableEq, Repr

/-- `isStoryLink`: type "story" and a non-empty URL. -/
def isStoryLink (it : item) : Bool :=
  it.Item.«Type» == "story" && it.Item.URL != ""

/-- `parseHNItem`. `urlHostname u` is `url.Parse(u)` followed by `Hostname()`, `none` when
the parse fails. -/
def parseHNItem (urlHostname : String → Option String) (hnItem : Hn.Item) : item :=
  match urlHostname hnItem.URL with
  | some h => { Item := hnItem, Host := trimPrefix h "www." }
  | none => { Item := hnItem, Host := "" }

/-- One iteration of the loop `for job := range jobs` of `startWorkers`: the results it
sends to `resultCh`, in sending order. `getItem id` is the pair `(hnItem, err)` that
`client.GetItem(id)` returns. The `if err != nil` block sends a result and has no
`continue`, so control falls through to the second send. -/
def startWorkers (getItem : Int → Hn.Item × Option String)
    (urlHostname : String → Option String) (j : job) : List result :=
  let r := getItem j.id
  (match r.2 with
    | some e => [{ idx := j.idx, item := item.zero, err := some e }]
    | none => []) ++
  [{ idx := j.idx, item := parseHNItem urlHostname r.1, err := none }]

/-- The jobs that the first loop of `getStories` sends: `job{idx: ids[i], id: i}`. -/
def jobsOf (ids : List Int) : List job :=
  ids.enum.map fun p => { idx := p.2, id := (p.1 : Int) }

/-- The call `sort.Slice(results, func(i, j) bool { return results[i].idx < results[j].idx })`.
`sort.Slice` is not stable; the model orders equal keys as an insertion sort does. With
pairwise distinct `idx` the outcome is the same for every sorting algorithm. -/
def sortByIdx (results : List result) : List result :=
  results.insertionSort (fun a b => a.idx ≤ b.idx)

/-- The last loop of `getStories`: skip results with an error, keep the story links. -/
def keepStories (results : List result) : List item :=
  results.filterMap fun res =>
    match res.err with
    | some _ => none
    | none => if isStoryLink res.item then some res.item else none

/-- `getStories`. `resultCh` holds the results that earlier calls left unreceived, and
`arrive` fixes the order in which these and the results of the jobs sent now are received.
The call receives `len(ids)` results, sorts them by `idx` and keeps the story links; it
returns the stories and what is left on the channel. -/
def getStories (getItem : Int → Hn.Item × Option String)
    (urlHostname : String → Option String) (arrive : List result → List result)
    (resultCh : List result) (ids : List Int) : Run (List item × List result) :=
  let sent := (jobsOf ids).flatMap (startWorkers getItem urlHostname)
  let ch := arrive (resultCh ++ sent)
  if ch.length < ids.length then .blocked
  else .ret (keepStories (sortByIdx (ch.take ids.length)), ch.drop ids.length)

/-- What the collector is specified to return: each id looked up in input order, failed
lookups and items that are not story links dropped. -/
def lookupInOrder (getItem : Int → Hn.Item × Option String)
    (urlHostname : String → Option String) (ids : List Int) : List item :=
  ids.filterMap fun id =>
    match (getItem id).2 with
    | some _ => none
    | none =>
      if isStoryLink (parseHNItem urlHostname (getItem id).1)
      then some (parseHNItem urlHostname (getItem id).1) else none

/-- A lookup service in which every id resolves to a story carrying that id. -/
def allStories (id : Int) : Hn.Item × Option String :=
  (⟨id, "story", "http://example.com", "t"⟩, none)

/-- A lookup service in which every lookup fails. -/
def allFail (_ : Int) : Hn.Item × Option String :=
  (Hn.Item.zero, some "lookup failed")

/-- The statement `copy(stories[at:at+len(strs)], strs[:])` on the array `stories`:
`none` is the panic of the slice expression when `at + len(strs)` exceeds the array. -/
def copyInto (stories : List item) (at_ : Int) (strs : List item) : Option (List item) :=
  if 0 ≤ at_ ∧ at_ + (strs.length : Int) ≤ (stories.length : Int) then
    some (stories.take at_.toNat ++ strs ++ stories.drop (at_.toNat + strs.length))
  else none

/-- One pass through the body of the `for` loop of `getTopStories`, from the state
(`stories`, `at`, contents of `resultCh`): the state after the pass and whether the loop
breaks (`at >= numStories`). -/
def topStoriesRound (getItem : Int → Hn.Item × Option String)
    (urlHostname : String → Option String) (arrive : List result → List result)
    (numStories : Int) (ids : List Int) (stories : List item) (at_ : Int)
    (resultCh : List result) : Run (List item × Int × List result × Bool) :=
  let need := (wrap64 (wrap64 (numStories - at_) * 5)).tdiv 4
  match sliceOf ids at_ (wrap64 (at_ + need)) with
  | none => .panic "slice bounds out of range"
  | some batch =>
    match getStories getItem urlHostname arrive resultCh batch with
    | .ret (strs, ch) =>
      match copyInto stories at_ strs with
      | none => .panic "slice bounds out of range"
      | some stories1 =>
        let at1 := at_ + (strs.length : Int)
        .ret (stories1, at1, ch, decide (at1 ≥ numStories))
    | .panic m => .panic m
    | .blocked => .blocked
    | .running => .running

/-- The `for` loop of `getTopStories`; `fuel` bounds the number of passes. -/
def topStoriesLoop (getItem : Int → Hn.Item × Option String)
    (urlHostname : String → Option String) (arrive : List result → List result)
    (numStories : Int) (ids : List Int) :
    Nat → List item → Int → List result → Run (List item × List result)
  | 0, _, _, _ => .running
  | fuel + 1, stories, at_, resultCh =>
    match topStoriesRound getItem urlHostname arrive numStories ids stories at_ resultCh with
    | .ret (stories1, at1, ch, done) =>
      if done then .ret (stories1, ch)
      else topStoriesLoop getItem urlHostname arrive numStories ids fuel stories1 at1 ch
    | .panic m => .panic m
    | .blocked => .blocked
    | .running => .running

/-- `getTopStories`. `topItems` is the pair `(ids, err)` that `client.TopItems()` returns.
The value returned is the array `[30]item` with the error, and the contents of `resultCh`
that the call leaves behind. -/
def getTopStories (topItems : List Int × Option String)
    (getItem : Int → Hn.Item × Option String) (urlHostname : String → Option String)
    (arrive : List result → List result) (fuel : Nat) (resultCh : List result)
    (numStories : Int) : Run ((List item × Option String) × List result) :=
  match topItems.2 with
  | some _ => .ret ((List.replicate 30 item.zero, some "Failed to load top stories"), resultCh)
  | none =>
    match topStoriesLoop getItem urlHostname arrive numStories topItems.1 fuel
        (List.replicate 30 item.zero) 0 resultCh with
    | .ret (stories, ch) => .ret ((stories, none), ch)
    | .panic m => .panic m
    | .blocked => .blocked
    | .running => .running

/-- A lookup service in which every id resolves to an item carrying that id: a comment
for the ids 1 and 3, a story for every other id. -/
def storiesBut13 (id : Int) : Hn.Item × Option String :=
  (⟨id, if id = 1 ∨ id = 3 then "comment" else "story", "http://example.com", "t"⟩, none)

/-- A lookup service in which every id resolves to a comment carrying that id. -/
def allComments (id : Int) : Hn.Item × Option String :=
  (⟨id, "comment", "", "t"⟩, none)

/-- The variables that `refreshCache` reads and writes after `getTopStories` returned:
the package variable `cacheA`, the local `stories` and the local `a` of type `uintptr`. -/
inductive Var where
  | cacheA
  | stories
  | a
  deriving DecidableEq, Repr

/-- Their contents: `cacheA` holds the served list, `stories` the fresh array and `a` a
number, the address of one of the variables (variables are numbered by `Var.addr`). -/
structure Store where
  cacheA : List item
  stories : List item
  a : Nat
  deriving DecidableEq, Repr

/-- The address `uintptr(unsafe.Pointer(&v))` of a variable: distinct variables have
distinct addresses. -/
def Var.addr : Var → Nat
  | .cacheA => 1
  | .stories => 2
  | .a => 3

/-- The call `atomic.SwapUintptr(&a, new)`: it stores `new` in the variable `a`, whose
address it is given, and returns the old contents of `a`. -/
def swapUintptrA (s : Store) (new : Nat) : Store × Nat :=
  ({ s with a := new }, s.a)

/-- The loop `for atomic.SwapUintptr(&a, uintptr(unsafe.Pointer(&stories))) == a {}`. Go
leaves open whether the operand `a` of `==` is read before or after the call on its left:
`readFirst` chooses. The result of the call is compared with that reading of `a`. -/
def spinSwap (readFirst : Bool) : Nat → Store → Run Store
  | 0, _ => .running
  | fuel + 1, s =>
    let r := swapUintptrA s (Var.addr .stories)
    let rhs := if readFirst then s.a else r.1.a
    if r.2 = rhs then spinSwap readFirst fuel r.1 else .ret r.1

/-- One pass through the body of the loop of `refreshCache`, after the tick was received:
`fresh` is the pair that `getTopStories(numStories)` returned on this tick. The function
returns the value of `cacheA` after the pass. -/
def refreshCache (readFirst : Bool) (fuel : Nat) (cacheA : List item)
    (fresh : List item × Option String) : Run (List item) :=
  match fresh.2 with
  | some _ => .ret cacheA
  | none =>
    let s : Store := { cacheA := cacheA, stories := fresh.1, a := Var.addr .cacheA }
    match spinSwap readFirst fuel s with
    | .ret s1 => .ret s1.cacheA
    | .panic m => .panic m
    | .blocked => .blocked
    | .running => .running

/-- `getCachedStories`: the value of `cacheA`, and a nil error. -/
def getCachedStories (cacheA : List item) : List item × Option String :=
  (cacheA, none)

end Main

namespace Jbimbert

/-- The struct `item` of src/students/jbimbert/main.go: the `hn.Item`, the `Host`, the rank
`id` given by `parseHNItem` and the time `t` at which the item was parsed. Instants are
counted in nanoseconds; the zero `time.Time` is instant 0. -/
structure item where
  Item : Hn.Item
  Host : String
  id : Int
  t : Int
  deriving DecidableEq, Repr

/-- The zero value `item{}`. -/
def item.zero : item := ⟨Hn.Item.zero, "", 0, 0⟩

/-- The struct `cache` (the mutex apart). `maxSize` and `curSize` are Go `int`s that are
never negative: `make([]item, maxSize)` panics on a negative length and `curSize` is a
count. `timeout` is a `time.Duration` in nanoseconds. -/
structure cache where
  maxSize : Nat
  curSize : Nat
  stories : List item
  timeout : Int
  deriving DecidableEq, Repr

/-- The cache as `main` sets it up: `stories = make([]item, maxSize)` and `curSize = 0`. -/
def cache.new (maxSize : Nat) (timeout : Int) : cache :=
  { maxSize := maxSize, curSize := 0, stories := List.replicate maxSize item.zero,
    timeout := timeout }

/-- `t.Sub(u)` of package `time`: the difference as a `Duration`, saturated at the least
and the greatest `int64`. -/
def timeSub (t u : Int) : Int :=
  max (-(2 ^ 63)) (min (2 ^ 63 - 1) (t - u))

/-- The loop of `cache.find` over `c.stories[0]`, ..., `c.stories[size-1]`: the first
entry whose `Item.ID` is `id` with `true`, or `item{}` with `false`; `none` is the panic
"index out of range". -/
def findLoop : List item → Nat → Int → Option (item × Bool)
  | _, 0, _ => some (item.zero, false)
  | [], _ + 1, _ => none
  | s :: rest, n + 1, id => if s.Item.ID = id then some (s, true) else findLoop rest n id

/-- `cache.find`. -/
def cache.find (c : cache) (id : Int) : Option (item × Bool) :=
  findLoop c.stories c.curSize id

/-- The inner loop of `cache.add` over the first `size` entries: is there an entry whose
rank `id` equals `id`? `none` is the panic "index out of range". -/
def foundLoop : List item → Nat → Int → Option Bool
  | _, 0, _ => some false
  | [], _ + 1, _ => none
  | s :: rest, n + 1, id => if s.id = id then some true else foundLoop rest n id

/-- The outer loop of `cache.add`, with `size` the value that `c.curSize` had when `add`
was called. -/
def addLoop (size : Nat) : cache → List item → Option cache
  | c, [] => some c
  | c, story :: rest =>
    match foundLoop c.stories size story.id with
    | none => none
    | some true => addLoop size c rest
    | some false =>
      if c.curSize < c.maxSize then
        if c.curSize < c.stories.length then
          let c1 : cache :=
            { c with stories := c.stories.set c.curSize story, curSize := c.curSize + 1 }
          if c1.curSize ≥ c1.maxSize then some c1 else addLoop size c1 rest
        else none
      else some c

/-- `cache.add`. -/
def cache.add (c : cache) (stories : List item) : Option cache :=
  addLoop c.curSize c stories

/-- The loop of `cache.purge` over the first `k` entries still to visit: `p` is the new
slice and `n` the number of entries copied so far. -/
def purgeLoop (timeout now : Int) : List item → Nat → List item → Nat →
    Option (List item × Nat)
  | _, 0, p, n => some (p, n)
  | [], _ + 1, _, _ => none
  | s :: rest, k + 1, p, n =>
    if timeSub now s.t < timeout then
      if n < p.length then purgeLoop timeout now rest k (p.set n s) (n + 1) else none
    else purgeLoop timeout now rest k p n

/-- `cache.purge`, run at the instant `now` (the value of `time.Now()`). -/
def cache.purge (c : cache) (now : Int) : Option cache :=
  match purgeLoop c.timeout now c.stories c.curSize (List.replicate c.maxSize item.zero) 0 with
  | none => none
  | some r => some { c with stories := r.1, curSize := r.2 }

/-- The invariant of the cache: the count is within the capacity and `stories` has the
length it was made with. -/
def Inv (c : cache) : Prop :=
  c.curSize ≤ c.maxSize ∧ c.stories.length = c.maxSize

/-- A call of `cache.add` or of `cache.purge`, with its argument or its time. -/
inductive Op where
  | add (stories : List item)
  | purge (now : Int)
  deriving DecidableEq, Repr

/-- Run one call on the cache. -/
def Op.run : Op → cache → Option cache
  | .add stories, c => c.add stories
  | .purge now, c => c.purge now

/-- Run a sequence of calls, the first of the list first. -/
def runOps : List Op → cache → Option cache
  | [], c => some c
  | op :: ops, c =>
    match op.run c with
    | none => none
    | some c1 => runOps ops c1

/-- `isStoryLink`. -/
def isStoryLink (it : item) : Bool :=
  it.Item.«Type» == "story" && it.Item.URL != ""

/-- `parseHNItem`, called at the instant `now`. -/
def parseHNItem (urlHostname : String → Option String) (now : Int) (hnItem : Hn.Item)
    (id : Int) : item :=
  match urlHostname hnItem.URL with
  | some h => { Item := hnItem, Host := trimPrefix h "www.", id := id, t := now }
  | none => { Item := hnItem, Host := "", id := 0, t := 0 }

/-- The body of the goroutine that `getStoriesWithChannel` starts for position `i` and id
`id`: the item it sends on the channel `c`. An item that is not a story link gets its rank
`id` set to `-1`. -/
def fetchOne (getItem : Int → Hn.Item × Option String)
    (urlHostname : String → Option String) (now : Nat → Int) (idx : Int) (i : Nat)
    (id : Int) : item :=
  let itm := parseHNItem urlHostname (now i) (getItem id).1 ((i : Int) + idx)
  if !isStoryLink itm then { itm with id := -1 } else itm

/-- The first loop of `getStoriesWithChannel` from position `i` on: `stories` collects the
cache hits and `sent` the items that the goroutines started so far will send; `len` is
`len(ids)`. -/
def lookupLoop (getItem : Int → Hn.Item × Option String)
    (urlHostname : String → Option String) (now : Nat → Int) (cach : cache) (idx : Int)
    (len : Nat) : List Int → Nat → List item → List item → Option (List item × List item)
  | [], _, stories, sent => some (stories, sent)
  | id :: rest, i, stories, sent =>
    match cach.find id with
    | none => none
    | some (it, true) =>
      if (stories ++ [it]).length ≥ len then some (stories ++ [it], sent)
      else lookupLoop getItem urlHostname now cach idx len rest (i + 1) (stories ++ [it]) sent
    | some (_, false) =>
      lookupLoop getItem urlHostname now cach idx len rest (i + 1) stories
        (sent ++ [fetchOne getItem urlHostname now idx i id])

/-- `getStoriesWithChannel`. `arrive` fixes the order in which the items sent by the
goroutines are received; the second loop appends the received items whose `Item.ID`
differs from `-1`. -/
def getStoriesWithChannel (getItem : Int → Hn.Item × Option String)
    (urlHostname : String → Option String) (now : Nat → Int)
    (arrive : List item → List item) (cach : cache) (idx : Int) (ids : List Int) :
    Option (List item) :=
  match lookupLoop getItem urlHostname now cach idx ids.length ids 0 [] [] with
  | none => none
  | some (stories, sent) =>
    some (stories ++ (arrive sent).filter fun itm => itm.Item.ID != -1)

/-- A lookup service in which every id resolves to a comment carrying that id. -/
def allComments (id : Int) : Hn.Item × Option String :=
  (⟨id, "comment", "", "t"⟩, none)

/-- A story link with item id `ID`, rank `id` and parse time `t`. -/
def story (ID id t : Int) : item :=
  { Item := ⟨ID, "story", "http://example.com", "t"⟩, Host := trimPrefix "www.example.com" "www.", id := id, t := t }

end Jbimbert

namespace Main

/-- C1 (fails on the code): for ids `[7, 3]`, every lookup succeeding and the results
arriving in sending order, `getStories` returns the items with ids `1` and `0` (the
positions, looked up in place of the ids, ordered by the id values `3 < 7`), not the items
`7` and `3` that looking up each id in input order gives. -/
theorem getStories_looks_up_positions :
    getStories allStories hostExample id [] [7, 3]
        = .ret ([(parseHNItem hostExample (allStories 1).1),
                 (parseHNItem hostExample (allStories 0).1)], [])
      ∧ lookupInOrder allStories hostExample [7, 3]
        = [(parseHNItem hostExample (allStories 7).1),
           (parseHNItem hostExample (allStories 3).1)]
      ∧ getStories allStories hostExample id [] [7, 3]
        ≠ .ret (lookupInOrder allStories hostExample [7, 3], []) := by
  decide

/-- C3 (fails on the code): one iteration of the worker loop sends one result when the
lookup succeeds and two when it fails: the result carrying the error and then, for want of
a `continue`, a second result with no error and the parsed item. For the job with id 0 and
rank 7 and a failing lookup the two results are shown. -/
theorem startWorkers_sends_twice_on_failure :
    (∀ (getItem : Int → Hn.Item × Option String) (urlHostname : String → Option String)
        (j : job), (startWorkers getItem urlHostname j).length
          = if (getItem j.id).2.isSome then 2 else 1)
      ∧ startWorkers allFail hostExample { id := 0, idx := 7 }
          = [{ idx := 7, item := item.zero, err := some "lookup failed" },
             { idx := 7, item := item.zero, err := none }] := by
  refine ⟨fun getItem urlHostname j => ?_, by decide⟩
  cases h : (getItem j.id).2 <;> simp [startWorkers, h]

/-- With one id that resolves to a comment and `numStories = 1`, a pass of the loop of
`getTopStories` leaves the state as it found it and does not break. -/
theorem topStoriesRound_stuck :
    topStoriesRound allComments hostExample id 1 [7] (List.replicate 30 item.zero) 0 []
      = .ret (List.replicate 30 item.zero, 0, [], false) := by
  decide

/-- C2 (fails on the code): with `numStories = 4`, the pairwise distinct ids `[1,2,3,4,5]`
and every id resolving to an item that carries it, `getTopStories` returns an array whose
first four slots hold the story with id 0 twice. The first round fills three slots, so the
second round reads the id list from position 3 (the count of stories, not the number of ids
consumed) and its single job looks up position 0 of that batch again. -/
theorem getTopStories_returns_a_story_twice :
    [1, 2, 3, 4, 5].Nodup
      ∧ (∀ id, (storiesBut13 id).1.ID = id ∧ (storiesBut13 id).2 = none)
      ∧ getTopStories ([1, 2, 3, 4, 5], none) storiesBut13 hostExample id 2 [] 4
        = .ret (([parseHNItem hostExample (storiesBut13 0).1,
                  parseHNItem hostExample (storiesBut13 2).1,
                  parseHNItem hostExample (storiesBut13 4).1,
                  parseHNItem hostExample (storiesBut13 0).1]
                  ++ List.replicate 26 item.zero, none), [])
      ∧ isStoryLink (parseHNItem hostExample (storiesBut13 0).1) = true
      ∧ ¬ ([parseHNItem hostExample (storiesBut13 0).1,
            parseHNItem hostExample (storiesBut13 2).1,
            parseHNItem hostExample (storiesBut13 4).1,
            parseHNItem hostExample (storiesBut13 0).1].map fun it => it.Item.ID).Nodup := by
  refine ⟨by decide, fun id => ⟨rfl, rfl⟩, by decide, by decide, by decide⟩

/-- C4 (fails on the code): with `numStories = 1` and the id list `[7]`, whose only item is
a comment (no qualifying story, fewer than `numStories`), `getTopStories` never returns:
whatever the number of passes allowed, the loop is still running. With `numStories = 2`
and the same list (of capacity 1) the first pass panics on `ids[0:2]`. -/
theorem getTopStories_no_short_list :
    (∀ fuel, getTopStories ([7], none) allComments hostExample id fuel [] 1 = .running)
      ∧ (∀ fuel, getTopStories ([7], none) allComments hostExample id (fuel + 1) [] 2
          = .panic "slice bounds out of range") := by
  constructor
  · intro fuel
    have h : topStoriesLoop allComments hostExample id 1 [7] fuel
        (List.replicate 30 item.zero) 0 [] = .running := by
      induction fuel with
      | zero => rfl
      | succ n ih =>
        rw [topStoriesLoop, topStoriesRound_stuck]
        simpa using ih
    simp only [getTopStories, h]
  · intro fuel
    have h : topStoriesRound allComments hostExample id 2 [7]
        (List.replicate 30 item.zero) 0 [] = .panic "slice bounds out of range" := by
      decide
    simp only [getTopStories, topStoriesLoop, h]

/-- When the operand `a` is read before the call, the loop of `refreshCache` compares the
old contents of `a` with themselves and never ends. -/
theorem spinSwap_readFirst (fuel : Nat) (s : Store) : spinSwap true fuel s = .running := by
  induction fuel generalizing s with
  | zero => rfl
  | succ n ih => simp [spinSwap, swapUintptrA, ih]

/-- C5 (fails on the code): on a tick on which `getTopStories` succeeds, `refreshCache`
swaps the address held in its local variable `a` and leaves the package variable `cacheA`
as it was. When `a` is read after the call the pass ends with `cacheA` unchanged, so the
next `getCachedStories` returns the list cached before the tick, whatever the freshly
computed list is; when `a` is read before the call the pass never ends. -/
theorem refreshCache_leaves_cacheA (fuel : Nat) (cacheA fresh : List item) :
    refreshCache false (fuel + 1) cacheA (fresh, none) = .ret cacheA
      ∧ refreshCache true fuel cacheA (fresh, none) = .running
      ∧ getCachedStories cacheA = (cacheA, none) := by
  refine ⟨?_, ?_, rfl⟩
  · simp [refreshCache, spinSwap, swapUintptrA, Var.addr]
  · simp [refreshCache, spinSwap_readFirst]

/-- C10 (fails on the code): with `numStories = 2` and the ids `[7, 8, 9]`, all comments,
the first round reads `ids[0:2]`, yields no story, and leaves `at = 0` without breaking:
the next round starts at the same position 0, not at a greater one, and the loop is still
running after any number of rounds although the ids are never consumed. -/
theorem getTopStories_round_does_not_advance :
    topStoriesRound allComments hostExample id 2 [7, 8, 9] (List.replicate 30 item.zero) 0 []
        = .ret (List.replicate 30 item.zero, 0, [], false)
      ∧ ∀ fuel, topStoriesLoop allComments hostExample id 2 [7, 8, 9] fuel
          (List.replicate 30 item.zero) 0 [] = .running := by
  have h : topStoriesRound allComments hostExample id 2 [7, 8, 9]
      (List.replicate 30 item.zero) 0 [] = .ret (List.replicate 30 item.zero, 0, [], false) := by
    decide
  refine ⟨h, fun fuel => ?_⟩
  induction fuel with
  | zero => rfl
  | succ n ih =>
    rw [topStoriesLoop, h]
    simpa using ih

end Main

namespace Jbimbert

theorem foundLoop_some (l : List item) (size : Nat) (id : Int) (h : size ≤ l.length) :
    ∃ b, foundLoop l size id = some b := by
  induction l generalizing size with
  | nil =>
    have : size = 0 := by simpa using h
    subst this
    exact ⟨false, rfl⟩
  | cons s rest ih =>
    cases size with
    | zero => exact ⟨false, rfl⟩
    | succ n =>
      by_cases hs : s.id = id
      · exact ⟨true, by simp [foundLoop, hs]⟩
      · obtain ⟨b, hb⟩ := ih n (by simpa using h)
        exact ⟨b, by simp [foundLoop, hs, hb]⟩

theorem addLoop_inv (size : Nat) (stories : List item) (c : cache) (hc : Inv c)
    (hsize : size ≤ c.curSize) :
    ∃ c1, addLoop size c stories = some c1 ∧ Inv c1 ∧ c1.maxSize = c.maxSize
      ∧ c1.timeout = c.timeout := by
  induction stories generalizing c with
  | nil => exact ⟨c, rfl, hc, rfl, rfl⟩
  | cons story rest ih =>
    obtain ⟨b, hb⟩ := foundLoop_some c.stories size story.id (by
      have := hc.1; have := hc.2; omega)
    cases b with
    | true =>
      obtain ⟨c1, h1, h2, h3, h4⟩ := ih c hc hsize
      exact ⟨c1, by simp [addLoop, hb, h1], h2, h3, h4⟩
    | false =>
      by_cases hlt : c.curSize < c.maxSize
      · have hlen : c.curSize < c.stories.length := by rw [hc.2]; exact hlt
        by_cases hfull : c.curSize + 1 ≥ c.maxSize
        · let c1 : cache :=
            { c with stories := c.stories.set c.curSize story, curSize := c.curSize + 1 }
          refine ⟨c1, ?_, ?_, rfl, rfl⟩
          · simp [addLoop, hb, hlt, hlen, hfull]
          · exact ⟨by simpa using hlt, by simpa using hc.2⟩
        · obtain ⟨c1, h1, h2, h3, h4⟩ :=
            ih { c with stories := c.stories.set c.curSize story, curSize := c.curSize + 1 }
              ⟨by simpa using hlt, by simpa using hc.2⟩ (by simp; omega)
          exact ⟨c1, by simp [addLoop, hb, hlt, hlen, hfull, h1], h2, h3, h4⟩
      · exact ⟨c, by simp [addLoop, hb, hlt], hc, rfl, rfl⟩

theorem purgeLoop_some (timeout now : Int) (l : List item) (k : Nat) (p : List item) (n : Nat)
    (hk : k ≤ l.length) (hn : n + k ≤ p.length) :
    ∃ p1 n1, purgeLoop timeout now l k p n = some (p1, n1) ∧ n1 ≤ n + k
      ∧ p1.length = p.length := by
  induction l generalizing k p n with
  | nil =>
    have : k = 0 := by simpa using hk
    subst this
    exact ⟨p, n, rfl, by omega, rfl⟩
  | cons s rest ih =>
    cases k with
    | zero => exact ⟨p, n, rfl, by omega, rfl⟩
    | succ k =>
      by_cases ht : timeSub now s.t < timeout
      · have hnp : n < p.length := by omega
        obtain ⟨p1, n1, h1, h2, h3⟩ := ih k (p.set n s) (n + 1) (by simpa using hk)
          (by simp; omega)
        exact ⟨p1, n1, by simp [purgeLoop, ht, hnp, h1], by omega, by simpa using h3⟩
      · obtain ⟨p1, n1, h1, h2, h3⟩ := ih k p n (by simpa using hk) (by omega)
        exact ⟨p1, n1, by simp [purgeLoop, ht, h1], by omega, h3⟩

theorem purge_inv (c : cache) (now : Int) (hc : Inv c) :
    ∃ c1, c.purge now = some c1 ∧ Inv c1 ∧ c1.maxSize = c.maxSize
      ∧ c1.timeout = c.timeout := by
  obtain ⟨p1, n1, h1, h2, h3⟩ := purgeLoop_some c.timeout now c.stories c.curSize
    (List.replicate c.maxSize item.zero) 0 (by have := hc.1; have := hc.2; omega)
    (by simpa using hc.1)
  refine ⟨{ c with stories := p1, curSize := n1 }, by simp [cache.purge, h1], ?_, rfl, rfl⟩
  exact ⟨by have := hc.1; simp; omega, by simpa using h3⟩

theorem runOps_inv (ops : List Op) (c : cache) (hc : Inv c) :
    ∃ c1, runOps ops c = some c1 ∧ Inv c1 ∧ c1.maxSize = c.maxSize
      ∧ c1.timeout = c.timeout := by
  induction ops generalizing c with
  | nil => exact ⟨c, rfl, hc, rfl, rfl⟩
  | cons op ops ih =>
    have hstep : ∃ c1, op.run c = some c1 ∧ Inv c1 ∧ c1.maxSize = c.maxSize
        ∧ c1.timeout = c.timeout := by
      cases op with
      | add stories => exact addLoop_inv c.curSize stories c hc (Nat.le_refl _)
      | purge now => exact purge_inv c now hc
    obtain ⟨c1, h1, h2, h3, h4⟩ := hstep
    obtain ⟨c2, g1, g2, g3, g4⟩ := ih c1 h2
    exact ⟨c2, by simp [runOps, h1, g1], g2, by rw [g3, h3], by rw [g4, h4]⟩

theorem new_inv (maxSize : Nat) (timeout : Int) : Inv (cache.new maxSize timeout) :=
  ⟨Nat.zero_le _, by simp [cache.new]⟩

theorem take_set_succ {α : Type} (p : List α) (n : Nat) (s : α) (h : n < p.length) :
    (p.set n s).take (n + 1) = p.take n ++ [s] := by
  induction p generalizing n with
  | nil => simp at h
  | cons a p ih =>
    cases n with
    | zero => simp
    | succ n => simpa using ih n (by simpa using h)

theorem findLoop_found (l : List item) (n : Nat) (id : Int) (e : item)
    (h : findLoop l n id = some (e, true)) : e ∈ l.take n ∧ e.Item.ID = id := by
  induction l generalizing n with
  | nil =>
    cases n with
    | zero => simp [findLoop] at h
    | succ n => simp [findLoop] at h
  | cons s rest ih =>
    cases n with
    | zero => simp [findLoop] at h
    | succ n =>
      by_cases hs : s.Item.ID = id
      · simp [findLoop, hs] at h
        subst h
        exact ⟨by simp, hs⟩
      · simp [findLoop, hs] at h
        obtain ⟨h1, h2⟩ := ih n h
        exact ⟨by simp [h1], h2⟩

theorem findLoop_finds (l : List item) (n : Nat) (e : item) (h : e ∈ l.take n) :
    ∃ e1, findLoop l n e.Item.ID = some (e1, true) ∧ e1.Item.ID = e.Item.ID
      ∧ e1 ∈ l.take n := by
  induction l generalizing n with
  | nil => simp at h
  | cons s rest ih =>
    cases n with
    | zero => simp at h
    | succ n =>
      by_cases hs : s.Item.ID = e.Item.ID
      · exact ⟨s, by simp [findLoop, hs], hs, by simp⟩
      · have hmem : e ∈ rest.take n := by
          rcases List.mem_cons.mp (by simpa using h) with h1 | h1
          · exact absurd (by rw [h1]) hs
          · exact h1
        obtain ⟨e1, h1, h2, h3⟩ := ih n hmem
        exact ⟨e1, by simp [findLoop, hs, h1], h2, by simp [h3]⟩

theorem purgeLoop_young (timeout now : Int) (l : List item) (k : Nat) (p : List item)
    (n : Nat) (p1 : List item) (n1 : Nat)
    (hp : ∀ e ∈ p.take n, timeSub now e.t < timeout)
    (h : purgeLoop timeout now l k p n = some (p1, n1)) :
    ∀ e ∈ p1.take n1, timeSub now e.t < timeout := by
  induction l generalizing k p n with
  | nil =>
    cases k with
    | zero =>
      simp [purgeLoop] at h
      obtain ⟨h1, h2⟩ := h
      subst h1; subst h2
      exact hp
    | succ k => simp [purgeLoop] at h
  | cons s rest ih =>
    cases k with
    | zero =>
      simp [purgeLoop] at h
      obtain ⟨h1, h2⟩ := h
      subst h1; subst h2
      exact hp
    | succ k =>
      by_cases ht : timeSub now s.t < timeout
      · by_cases hnp : n < p.length
        · simp [purgeLoop, ht, hnp] at h
          refine ih k (p.set n s) (n + 1) ?_ h
          intro e he
          rw [take_set_succ p n s hnp] at he
          rcases List.mem_append.mp he with h1 | h1
          · exact hp e h1
          · have : e = s := by simpa using h1
            rw [this]; exact ht
        · simp [purgeLoop, ht, hnp] at h
      · simp [purgeLoop, ht] at h
        exact ih k p n hp h

/-- C6 (as amended): in every cache state reached from the empty cache by `add` and
`purge` calls, `purge` at the instant `now` succeeds and a `find` on the purged cache
returns only entries with the id asked for whose age `now.Sub(t)` is below the timeout;
and `find`, which makes no check of the age, finds under its `Item.ID` every entry among
the first `curSize`, returning a cached entry that carries this `Item.ID`. -/
theorem find_after_purge (maxSize : Nat) (timeout : Int) (ops : List Op) (c : cache)
    (now : Int) (hrun : runOps ops (cache.new maxSize timeout) = some c) :
    (∃ c1, c.purge now = some c1 ∧
        ∀ id e, c1.find id = some (e, true) → timeSub now e.t < timeout ∧ e.Item.ID = id)
      ∧ (∀ e ∈ c.stories.take c.curSize,
          ∃ e1, c.find e.Item.ID = some (e1, true) ∧ e1.Item.ID = e.Item.ID
            ∧ e1 ∈ c.stories.take c.curSize) := by
  obtain ⟨c0, h1, h2, _, h4⟩ := runOps_inv ops (cache.new maxSize timeout) (new_inv _ _)
  have hc : c0 = c := by rw [h1] at hrun; exact Option.some.inj hrun
  subst hc
  have htimeout : c0.timeout = timeout := by simpa [cache.new] using h4
  constructor
  · obtain ⟨c1, g1, _, _, _⟩ := purge_inv c0 now h2
    refine ⟨c1, g1, fun id e hfind => ?_⟩
    have hfound := findLoop_found c1.stories c1.curSize id e hfind
    refine ⟨?_, hfound.2⟩
    unfold cache.purge at g1
    cases hloop : purgeLoop c0.timeout now c0.stories c0.curSize
        (List.replicate c0.maxSize item.zero) 0 with
    | none => simp [hloop] at g1
    | some r =>
      simp [hloop] at g1
      subst g1
      have := purgeLoop_young c0.timeout now c0.stories c0.curSize
        (List.replicate c0.maxSize item.zero) 0 r.1 r.2 (by simp) hloop e hfound.1
      rw [htimeout] at this
      exact this
  · intro e he
    exact findLoop_finds c0.stories c0.curSize e he

/-- C6, an instance: a cache of capacity 2 and timeout 10 to which two stories parsed at the
instants 0 and 8 were added, purged at the instant 12. -/
theorem find_after_purge_witness :
    runOps [.add [story 100 0 0, story 200 1 8]] (cache.new 2 10)
        = some ⟨2, 2, [story 100 0 0, story 200 1 8], 10⟩
      ∧ (∃ c1, cache.purge ⟨2, 2, [story 100 0 0, story 200 1 8], 10⟩ 12 = some c1 ∧
        ∀ id e, c1.find id = some (e, true) → timeSub 12 e.t < 10 ∧ e.Item.ID = id)
      ∧ (∀ e ∈ (cache.mk 2 2 [story 100 0 0, story 200 1 8] 10).stories.take 2,
          ∃ e1, cache.find ⟨2, 2, [story 100 0 0, story 200 1 8], 10⟩ e.Item.ID
              = some (e1, true) ∧ e1.Item.ID = e.Item.ID
            ∧ e1 ∈ (cache.mk 2 2 [story 100 0 0, story 200 1 8] 10).stories.take 2) :=
  ⟨by decide, find_after_purge 2 10 [.add [story 100 0 0, story 200 1 8]]
    ⟨2, 2, [story 100 0 0, story 200 1 8], 10⟩ 12 (by decide)⟩

/-- C6 (fails as stated): in the cache reached by adding one story parsed at the instant
0, with timeout 10, `find` at the instant 10 returns that story although its age, 10, is
not below the timeout: `find` does not look at the age and no `purge` has run since. -/
theorem find_returns_expired_entry :
    runOps [.add [story 100 0 0]] (cache.new 1 10) = some ⟨1, 1, [story 100 0 0], 10⟩
      ∧ cache.find ⟨1, 1, [story 100 0 0], 10⟩ 100 = some (story 100 0 0, true)
      ∧ timeSub 10 (story 100 0 0).t ≥ 10 := by
  decide

/-- C8 (fails on the code): `add` compares the rank `id` of the story with the ranks of
the entries, not the item ids. From the empty cache of capacity 2, adding the story with
item id 100 at rank 0 and then the same item id at rank 1 stores both: the two cached
entries have the item id 100, the id that `find` looks entries up by. -/
theorem add_stores_same_item_id_twice :
    runOps [.add [story 100 0 0], .add [story 100 1 5]] (cache.new 2 10)
        = some ⟨2, 2, [story 100 0 0, story 100 1 5], 10⟩
      ∧ (story 100 0 0).Item.ID = (story 100 1 5).Item.ID
      ∧ ¬ ((List.take 2 [story 100 0 0, story 100 1 5]).map fun e => e.Item.ID).Nodup := by
  decide

/-- C9 (fails on the code): with an empty cache (every entry of which is, vacuously, a
qualifying story) and the id 5 resolving to a comment, `getStoriesWithChannel` returns that
comment: the goroutine marks it by setting the rank `id` to `-1`, the receiving loop tests
the item id `ID`, which is 5. -/
theorem getStoriesWithChannel_returns_a_comment :
    getStoriesWithChannel allComments hostExample (fun _ => 3) id (cache.new 40 10) 0 [5]
        = some [{ Item := ⟨5, "comment", "", "t"⟩, Host := "", id := -1, t := 3 }]
      ∧ isStoryLink { Item := ⟨5, "comment", "", "t"⟩, Host := "", id := -1, t := 3 }
        = false := by
  decide

/-- C7: starting from the empty cache of capacity `maxSize`, every sequence of `add` and
`purge` calls, with any arguments and at any times, runs without a panic and ends in a
cache of the same capacity with `curSize <= maxSize`. -/
theorem cache_size_within_capacity (maxSize : Nat) (timeout : Int) (ops : List Op) :
    ∃ c, runOps ops (cache.new maxSize timeout) = some c ∧ c.maxSize = maxSize
      ∧ c.curSize ≤ c.maxSize := by
  obtain ⟨c, h1, h2, h3, _⟩ := runOps_inv ops (cache.new maxSize timeout) (new_inv _ _)
  exact ⟨c, h1, h3, h2.1⟩

end Jbimbert
